import Mathlib

/-!
Verification of the Grid component and keyboard dispatch of the
ConwaysTerminalOfLife repository (src/src/conway.rs and src/src/main.rs),
as a shallow embedding in Lean.

Modelling conventions:
  - A Rust Vec of Vec of bool becomes a List of List of Bool.
  - usize arithmetic becomes Nat arithmetic; the source only uses
    saturating_sub, min and small additions, which Nat models exactly on
    the in-range inputs the program reaches.
  - Randomness (rand::rng) is modelled by an explicit oracle of type
    Nat -> Nat -> Bool giving the boolean drawn at each (row, column).
  - File and terminal side effects are split off: from_file is modelled by
    its pure parse of the file content (fromText), save_to_file by the
    content it writes (saveContent). A Rust panic (the unwrap in
    from_file on content with no lines) is modelled by Option.none.
-/

namespace Conway

/-- Read of m[i][j] in the source. In Rust the index panics out of range;
here out-of-range reads default to an empty row or a dead cell. Every claim
is settled on in-range reads, where the default is never observed. -/
def cellAt (m : List (List Bool)) (i j : Nat) : Bool := (m.getD i []).getD j false

/-- The inclusive Rust range a..=b as a list; empty when b < a. -/
def rangeIncl (a b : Nat) : List Nat := (List.range (b + 1 - a)).map (fun t => a + t)

/-- The struct Grid of src/src/conway.rs: saved snapshot, live cell matrix,
dimensions and pause flag. -/
structure Grid where
  saved : List (List Bool)
  grid : List (List Bool)
  rows : Nat
  cols : Nat
  paused : Bool
deriving DecidableEq

/-- create_random_vec of the source: rows x cols booleans drawn from the
random generator, modelled by the oracle rng. -/
def create_random_vec (rng : Nat → Nat → Bool) (rows cols : Nat) : List (List Bool) :=
  (List.range rows).map (fun i => (List.range cols).map (fun j => rng i j))

/-- Grid::new: a random matrix, with saved a copy of it, not paused. -/
def Grid.new (rng : Nat → Nat → Bool) (rows cols : Nat) : Grid :=
  let grid := create_random_vec rng rows cols
  { saved := grid, grid := grid, rows := rows, cols := cols, paused := false }

/-- The enum GridError of the source. The Io variant wraps an io::Error in
Rust; the wrapped cause is irrelevant to the claims and is dropped. -/
inductive GridError where
  | Io : GridError
  | Parse : Char → GridError
  | InconsistentWidth : GridError
deriving DecidableEq

/-- The byte length line.len() of a Rust string slice, on a list of chars. -/
def byteLen (l : List Char) : Nat := (l.map Char.utf8Size).sum

/-- The inner character loop of from_file on one line: '0' is dead, '1' is
alive, the first other character is a parse error. -/
def parseRow : List Char → Except GridError (List Bool)
  | [] => .ok []
  | c :: rest =>
    if c = '0' then (parseRow rest).map (fun row => false :: row)
    else if c = '1' then (parseRow rest).map (fun row => true :: row)
    else .error (.Parse c)

/-- The line loop of from_file: each line is width-checked against the first
line (in bytes, as line.len() in Rust), then parsed character by character. -/
def parseLines : List (List Char) → Option Nat → Except GridError (List (List Bool))
  | [], _ => .ok []
  | line :: rest, prev =>
    match prev with
    | some len =>
      if byteLen line ≠ len then .error .InconsistentWidth
      else
        match parseRow line with
        | .error e => .error e
        | .ok row =>
          match parseLines rest (some len) with
          | .error e => .error e
          | .ok m => .ok (row :: m)
    | none =>
      match parseRow line with
      | .error e => .error e
      | .ok row =>
        match parseLines rest (some (byteLen line)) with
        | .error e => .error e
        | .ok m => .ok (row :: m)

/-- Split a character list at each newline, keeping empty segments; the
result has one more segment than there are newlines. -/
def splitNl : List Char → List (List Char)
  | [] => [[]]
  | c :: rest =>
    if c = '\n' then [] :: splitNl rest
    else
      match splitNl rest with
      | [] => [[c]]
      | s :: ss => (c :: s) :: ss

/-- Remove one trailing carriage return, as Rust does on a line that was
terminated by a newline. -/
def stripCR (l : List Char) : List Char :=
  if l.getLast? = some '\r' then l.dropLast else l

/-- str::lines of Rust: split at newlines, strip one trailing carriage
return from each newline-terminated segment, and drop the final segment
when it is empty (a trailing newline produces no extra line). -/
def rustLines (content : List Char) : List (List Char) :=
  match (splitNl content).getLast? with
  | some [] => (splitNl content).dropLast.map stripCR
  | some l => (splitNl content).dropLast.map stripCR ++ [l]
  | none => []

/-- The pure part of Grid::from_file applied to the file content: the parse
loop, then rows = line count and cols = byte length of the first line. The
source unwraps lines().next() there, which panics when the content has no
line; that panic is the none result. The io::Error path of reading the file
and the terminal resize are outside this model. -/
def fromText (content : List Char) : Option (Except GridError Grid) :=
  match parseLines (rustLines content) none with
  | .error e => some (.error e)
  | .ok grid =>
    match (rustLines content).head? with
    | none => none
    | some first =>
      some (.ok { saved := grid, grid := grid,
                  rows := (rustLines content).length, cols := byteLen first,
                  paused := false })

/-- Grid::restart: replace the live matrix by a fresh random one of the
stored dimensions. -/
def Grid.restart (g : Grid) (rng : Nat → Nat → Bool) : Grid :=
  { g with grid := create_random_vec rng g.rows g.cols }

/-- Grid::save_state. -/
def Grid.save_state (g : Grid) : Grid := { g with saved := g.grid }

/-- Grid::load_state. -/
def Grid.load_state (g : Grid) : Grid := { g with grid := g.saved }

/-- One serialized row: '1' for alive, '0' for dead. -/
def rowChars (row : List Bool) : List Char :=
  row.map (fun cell => if cell then '1' else '0')

/-- The content Grid::save_to_file writes: each row serialized and
newline-terminated. The io::Error path of creating the file is outside
this model. -/
def Grid.saveContent (g : Grid) : List Char :=
  (g.grid.map (fun row => rowChars row ++ ['\n'])).flatten

/-- Grid::count_neighbors: live cells in the 3x3 block around (x, y),
clamped to the matrix bounds with saturating_sub and min, the center
excluded. -/
def Grid.count_neighbors (g : Grid) (x y : Nat) : Nat :=
  ((rangeIncl (x - 1) (min (x + 1) (g.rows - 1))).map (fun i =>
    ((rangeIncl (y - 1) (min (y + 1) (g.cols - 1))).filter (fun j =>
      !(i == x && j == y) && cellAt g.grid i j)).length)).sum

/-- The rule matches ((cell, neighbors), (true, 2..=3) | (false, 3)) of
update_grid. -/
def lifeRule (cell : Bool) (n : Nat) : Bool :=
  (cell && decide (2 ≤ n ∧ n ≤ 3)) || (!cell && decide (n = 3))

/-- Write v into buffer cell (i, j); a no-op out of range, never reached in
range in the source. -/
def writeCell (m : List (List Bool)) (i j : Nat) (v : Bool) : List (List Bool) :=
  m.set i ((m.getD i []).set j v)

/-- The nested loops of update_grid: enumerate the rows of the old matrix,
then the cells of each row, writing f i j cell into the buffer. -/
def fillBuffer (f : Nat → Nat → Bool → Bool) (old buf : List (List Bool)) :
    List (List Bool) :=
  (List.enumFrom 0 old).foldl
    (fun acc p =>
      (List.enumFrom 0 p.2).foldl
        (fun acc2 q => writeCell acc2 p.1 q.1 (f p.1 q.1 q.2)) acc)
    buf

/-- Grid::update_grid: a fresh rows x cols buffer of dead cells, filled by
the rule from the old matrix, replaces the live matrix. -/
def Grid.update_grid (g : Grid) : Grid :=
  { g with grid :=
      (fillBuffer (fun i j cell => lifeRule cell (g.count_neighbors i j)) g.grid
        (List.replicate g.rows (List.replicate g.cols false))) }

/-- Grid::toggle_pause. -/
def Grid.toggle_pause (g : Grid) : Grid := { g with paused := !g.paused }

/-- The dimension invariant of the spec: both matrices are rows x cols. -/
def Grid.WF (g : Grid) : Prop :=
  g.grid.length = g.rows ∧ (∀ row ∈ g.grid, row.length = g.cols) ∧
  g.saved.length = g.rows ∧ (∀ row ∈ g.saved, row.length = g.cols)

instance (g : Grid) : Decidable g.WF := by
  unfold Grid.WF
  infer_instance

/-- The grid mutations of the main loop that touch only the live matrix:
a Step (update_grid) or a Restart with some draw of the generator. -/
inductive Mutation where
  | step : Mutation
  | restartWith : (Nat → Nat → Bool) → Mutation

/-- Apply one mutation. -/
def applyMutation (g : Grid) : Mutation → Grid
  | .step => g.update_grid
  | .restartWith rng => g.restart rng

/-- Apply a sequence of mutations in order. -/
def applyMutations (g : Grid) (ms : List Mutation) : Grid :=
  ms.foldl applyMutation g

/-- char::to_ascii_lowercase of Rust: add 32 to an ASCII uppercase letter. -/
def toAsciiLower (c : Char) : Char :=
  if 'A' ≤ c ∧ c ≤ 'Z' then Char.ofNat (c.toNat + 32) else c

/-- char::eq_ignore_ascii_case of Rust. -/
def eqIgnoreAsciiCase (a b : Char) : Bool := toAsciiLower a == toAsciiLower b

/-- The key codes the handler in src/src/main.rs distinguishes: a character
key, Escape, or any other key (covered by the final wildcard arm). -/
inductive KeyCode where
  | char : Char → KeyCode
  | esc : KeyCode
  | other : KeyCode
deriving DecidableEq

/-- A key event: its code and whether the CONTROL modifier is held. -/
structure KeyEvent where
  code : KeyCode
  ctrl : Bool
deriving DecidableEq

/-- The observable outcome of handle_key_event: the continue flag it
returns, the grid after the dispatch, and the content written to the
target path when the save-to-file branch ran. -/
structure KeyOutcome where
  cont : Bool
  grid : Grid
  fileWrite : Option (List Char)
deriving DecidableEq

/-- handle_key_event of src/src/main.rs, arms in source order: restart on
'r', save to file on Ctrl and 's', snapshot on plain 's', load on 'l',
pause on 'p', then the break arms Escape, 'q' and Ctrl and 'c', then the
wildcard. -/
def handle_key_event (rng : Nat → Nat → Bool) (ev : KeyEvent) (g : Grid) : KeyOutcome :=
  match ev.code with
  | .char c =>
    if eqIgnoreAsciiCase c 'r' then ⟨true, g.restart rng, none⟩
    else if ev.ctrl && eqIgnoreAsciiCase c 's' then ⟨true, g, some g.saveContent⟩
    else if eqIgnoreAsciiCase c 's' then ⟨true, g.save_state, none⟩
    else if eqIgnoreAsciiCase c 'l' then ⟨true, g.load_state, none⟩
    else if eqIgnoreAsciiCase c 'p' then ⟨true, g.toggle_pause, none⟩
    else if eqIgnoreAsciiCase c 'q' then ⟨false, g, none⟩
    else if ev.ctrl && eqIgnoreAsciiCase c 'c' then ⟨false, g, none⟩
    else ⟨true, g, none⟩
  | .esc => ⟨false, g, none⟩
  | .other => ⟨true, g, none⟩

/-- A fixed all-dead random oracle, used for concrete instances. -/
def rng0 : Nat → Nat → Bool := fun _ _ => false

/-- A concrete well-formed 2 x 2 grid. -/
def gSample : Grid := Grid.new rng0 2 2

/-- A concrete 3 x 3 grid whose center row is alive (the blinker). -/
def gBlinker : Grid :=
  { saved := [[false, false, false], [true, true, true], [false, false, false]]
    grid := [[false, false, false], [true, true, true], [false, false, false]]
    rows := 3, cols := 3, paused := false }

/-- The 0 x 0 grid Grid::new(0, 0) produces. -/
def gEmpty : Grid := Grid.new rng0 0 0

/-! Generic list lemmas used by the development. -/

theorem getD_set_cond {α : Type} (l : List α) (n m : Nat) (v d : α) :
    (l.set n v).getD m d = if n = m ∧ n < l.length then v else l.getD m d := by
  rw [List.getD_eq_getElem?_getD, List.getElem?_set, List.getD_eq_getElem?_getD]
  by_cases h1 : n = m
  · subst h1
    by_cases h2 : n < l.length
    · simp [h2]
    · simp [h2, List.getElem?_eq_none (Nat.le_of_not_lt h2)]
  · simp [h1]

theorem foldl_invariant {β α : Type} (P : β → Prop) (step : β → α → β)
    (hstep : ∀ b a, P b → P (step b a)) :
    ∀ (L : List α) (acc : β), P acc → P (L.foldl step acc) := by
  intro L
  induction L with
  | nil => intro acc h; exact h
  | cons a t ih => intro acc h; exact ih (step acc a) (hstep acc a h)

theorem sum_map_le {α : Type} (t : List α) (f : α → Nat) (b : Nat)
    (h : ∀ i ∈ t, f i ≤ b) : (t.map f).sum ≤ t.length * b := by
  induction t with
  | nil => simp
  | cons a t ih =>
    simp only [List.map_cons, List.sum_cons, List.length_cons]
    have h1 : f a ≤ b := h a (by simp)
    have h2 : (t.map f).sum ≤ t.length * b := ih (fun i hi => h i (by simp [hi]))
    calc f a + (t.map f).sum ≤ b + t.length * b := Nat.add_le_add h1 h2
      _ = (t.length + 1) * b := by ring

theorem sum_map_le_single {α : Type} [DecidableEq α] (L : List α) (f : α → Nat)
    (b c : Nat) (x : α) (hx : x ∈ L) (hb : ∀ i ∈ L, f i ≤ b) (hc : f x ≤ c) :
    (L.map f).sum ≤ (L.length - 1) * b + c := by
  induction L with
  | nil => simp at hx
  | cons a t ih =>
    simp only [List.map_cons, List.sum_cons, List.length_cons, Nat.add_sub_cancel]
    by_cases hax : a = x
    · subst hax
      have h2 : (t.map f).sum ≤ t.length * b :=
        sum_map_le t f b (fun i hi => hb i (by simp [hi]))
      omega
    · have hxt : x ∈ t := by
        rcases List.mem_cons.mp hx with h | h
        · exact absurd h.symm hax
        · exact h
      have h1 : f a ≤ b := hb a (by simp)
      have h2 : (t.map f).sum ≤ (t.length - 1) * b + c :=
        ih hxt (fun i hi => hb i (by simp [hi]))
      have hlen : 1 ≤ t.length := List.length_pos.mpr (List.ne_nil_of_mem hxt)
      have : (t.length - 1) * b + b = t.length * b := by
        have := Nat.succ_pred_eq_of_pos hlen
        calc (t.length - 1) * b + b = ((t.length - 1) + 1) * b := by ring
          _ = t.length * b := by rw [Nat.sub_add_cancel hlen]
      omega

theorem filter_length_drop {α : Type} (L : List α) (p : α → Bool) (y : α)
    (hy : y ∈ L) (hp : p y = false) : (L.filter p).length ≤ L.length - 1 := by
  induction L with
  | nil => simp at hy
  | cons a t ih =>
    simp only [List.length_cons, Nat.add_sub_cancel]
    by_cases hpa : p a = true
    · have hyt : y ∈ t := by
        rcases List.mem_cons.mp hy with h | h
        · subst h; rw [hp] at hpa; exact absurd hpa (by simp)
        · exact h
      have h1 := ih hyt
      have h2 : 1 ≤ t.length := List.length_pos.mpr (List.ne_nil_of_mem hyt)
      simp only [List.filter_cons, hpa, if_true, List.length_cons]
      omega
    · have h1 := List.length_filter_le p t
      have hpa2 : p a = false := by simpa using hpa
      simpa [List.filter_cons, hpa2] using h1

theorem getD_replicate_cond {α : Type} (n i : Nat) (a d : α) :
    (List.replicate n a).getD i d = if i < n then a else d := by
  induction n generalizing i with
  | zero => simp
  | succ n ih =>
    cases i with
    | zero => simp [List.replicate]
    | succ i =>
      rw [show List.replicate (n + 1) a = a :: List.replicate n a from rfl,
        List.getD_cons_succ, ih]
      simp [Nat.succ_lt_succ_iff]

theorem length_rangeIncl (a b : Nat) : (rangeIncl a b).length = b + 1 - a := by
  simp [rangeIncl]

/-! Pointwise description of the buffer-filling loops of update_grid. -/

theorem matrixInner_getD (f : Nat → Bool → Bool) (i : Nat) (row : List Bool) :
    ∀ (k : Nat) (acc : List (List Bool)) (i2 : Nat),
    ((List.enumFrom k row).foldl
      (fun acc2 q => writeCell acc2 i q.1 (f q.1 q.2)) acc).getD i2 []
    = if i = i2 ∧ i < acc.length
      then (List.enumFrom k row).foldl
        (fun r q => r.set q.1 (f q.1 q.2)) (acc.getD i2 [])
      else acc.getD i2 [] := by
  induction row with
  | nil =>
    intro k acc i2
    split <;> rfl
  | cons a row ih =>
    intro k acc i2
    rw [show List.enumFrom k (a :: row) = (k, a) :: List.enumFrom (k + 1) row from rfl]
    simp only [List.foldl_cons]
    rw [ih (k + 1) (writeCell acc i k (f k a)) i2]
    unfold writeCell
    rw [List.length_set, getD_set_cond]
    by_cases h : i = i2 ∧ i < acc.length
    · rw [if_pos h, if_pos h, if_pos h]
      obtain ⟨rfl, hlt⟩ := h
      rfl
    · rw [if_neg h, if_neg h, if_neg h]

theorem rowFold_getD (f : Nat → Bool → Bool) (row : List Bool) :
    ∀ (k : Nat) (r : List Bool) (j : Nat),
    ((List.enumFrom k row).foldl (fun acc q => acc.set q.1 (f q.1 q.2)) r).getD j false
    = if k ≤ j ∧ j < k + row.length ∧ j < r.length
      then f j (row.getD (j - k) false) else r.getD j false := by
  induction row with
  | nil =>
    intro k r j
    rw [if_neg (by simp only [List.length_nil]; omega)]
    rfl
  | cons a row ih =>
    intro k r j
    rw [show List.enumFrom k (a :: row) = (k, a) :: List.enumFrom (k + 1) row from rfl]
    simp only [List.foldl_cons]
    rw [ih (k + 1) (r.set k (f k a)) j, List.length_set, getD_set_cond,
      List.length_cons]
    by_cases h1 : k + 1 ≤ j ∧ j < k + 1 + row.length ∧ j < r.length
    · rw [if_pos h1, if_pos (by omega : k ≤ j ∧ j < k + (row.length + 1) ∧ j < r.length)]
      congr 1
      rw [show j - k = (j - (k + 1)) + 1 by omega, List.getD_cons_succ]
    · rw [if_neg h1]
      by_cases h2 : k = j ∧ k < r.length
      · rw [if_pos h2]
        obtain ⟨rfl, hk⟩ := h2
        rw [if_pos (by omega : k ≤ k ∧ k < k + (row.length + 1) ∧ k < r.length)]
        simp
      · rw [if_neg h2, if_neg (by omega : ¬(k ≤ j ∧ j < k + (row.length + 1) ∧ j < r.length))]

theorem outerFold_getD (f : Nat → Nat → Bool → Bool) (rows2 : List (List Bool)) :
    ∀ (k : Nat) (acc : List (List Bool)) (i : Nat),
    ((List.enumFrom k rows2).foldl
      (fun acc2 p => (List.enumFrom 0 p.2).foldl
        (fun acc3 q => writeCell acc3 p.1 q.1 (f p.1 q.1 q.2)) acc2) acc).getD i []
    = if k ≤ i ∧ i < k + rows2.length ∧ i < acc.length
      then (List.enumFrom 0 (rows2.getD (i - k) [])).foldl
        (fun r q => r.set q.1 (f i q.1 q.2)) (acc.getD i [])
      else acc.getD i [] := by
  induction rows2 with
  | nil =>
    intro k acc i
    rw [if_neg (by simp only [List.length_nil]; omega)]
    rfl
  | cons row rows ih =>
    intro k acc i
    rw [show List.enumFrom k (row :: rows) = (k, row) :: List.enumFrom (k + 1) rows from rfl]
    simp only [List.foldl_cons]
    rw [ih (k + 1) _ i]
    have hlen : ((List.enumFrom 0 row).foldl
        (fun acc3 q => writeCell acc3 k q.1 (f k q.1 q.2)) acc).length = acc.length := by
      refine foldl_invariant (fun m => m.length = acc.length) _ ?_ _ acc rfl
      intro b q hb
      unfold writeCell
      rw [List.length_set, hb]
    rw [hlen, matrixInner_getD (f k) k row 0 acc i, List.length_cons]
    by_cases h1 : k + 1 ≤ i ∧ i < k + 1 + rows.length ∧ i < acc.length
    · rw [if_pos h1, if_neg (by omega : ¬(k = i ∧ k < acc.length)),
        if_pos (by omega : k ≤ i ∧ i < k + (rows.length + 1) ∧ i < acc.length)]
      congr 1
      rw [show i - k = (i - (k + 1)) + 1 by omega, List.getD_cons_succ]
    · rw [if_neg h1]
      by_cases h2 : k = i ∧ k < acc.length
      · rw [if_pos h2]
        obtain ⟨rfl, hk⟩ := h2
        rw [if_pos (by omega : k ≤ k ∧ k < k + (rows.length + 1) ∧ k < acc.length)]
        simp
      · rw [if_neg h2, if_neg (by omega : ¬(k ≤ i ∧ i < k + (rows.length + 1) ∧ i < acc.length))]

theorem writeCell_dims (m : List (List Bool)) (i j : Nat) (v : Bool) (R C : Nat)
    (h1 : m.length = R) (h2 : ∀ row ∈ m, row.length = C) :
    (writeCell m i j v).length = R ∧ ∀ row ∈ writeCell m i j v, row.length = C := by
  unfold writeCell
  by_cases hi : i < m.length
  · refine ⟨by rw [List.length_set, h1], ?_⟩
    intro row hrow
    rcases List.mem_or_eq_of_mem_set hrow with h | h
    · exact h2 row h
    · subst h
      rw [List.length_set]
      refine h2 _ ?_
      rw [List.getD_eq_getElem _ _ hi]
      exact List.getElem_mem hi
  · rw [List.set_eq_of_length_le (Nat.le_of_not_lt hi)]
    exact ⟨h1, h2⟩

theorem fillBuffer_dims (f : Nat → Nat → Bool → Bool) (old buf : List (List Bool))
    (R C : Nat) (h1 : buf.length = R) (h2 : ∀ row ∈ buf, row.length = C) :
    (fillBuffer f old buf).length = R ∧ ∀ row ∈ fillBuffer f old buf, row.length = C := by
  unfold fillBuffer
  refine foldl_invariant
    (fun (m : List (List Bool)) => m.length = R ∧ ∀ row ∈ m, row.length = C)
    _ ?_ _ _ ⟨h1, h2⟩
  intro b p hb
  exact foldl_invariant
    (fun (m : List (List Bool)) => m.length = R ∧ ∀ row ∈ m, row.length = C) _
    (fun b2 q hb2 => writeCell_dims b2 p.1 q.1 _ R C hb2.1 hb2.2) _ b hb

theorem fillBuffer_getD (f : Nat → Nat → Bool → Bool) (old buf : List (List Bool))
    (i : Nat) :
    (fillBuffer f old buf).getD i []
    = if i < old.length ∧ i < buf.length
      then (List.enumFrom 0 (old.getD i [])).foldl
        (fun r q => r.set q.1 (f i q.1 q.2)) (buf.getD i [])
      else buf.getD i [] := by
  unfold fillBuffer
  rw [outerFold_getD f old 0 buf i]
  by_cases h : i < old.length ∧ i < buf.length
  · rw [if_pos ⟨Nat.zero_le i, by omega, h.2⟩, if_pos h, Nat.sub_zero]
  · rw [if_neg (by omega), if_neg h]

theorem cellAt_update_grid (g : Grid) (hwf : g.WF) (i j : Nat)
    (hi : i < g.rows) (hj : j < g.cols) :
    cellAt (g.update_grid).grid i j
    = lifeRule (cellAt g.grid i j) (g.count_neighbors i j) := by
  obtain ⟨hg1, hg2, hg3, hg4⟩ := hwf
  have hrowlen : (g.grid.getD i []).length = g.cols := by
    refine hg2 _ ?_
    rw [List.getD_eq_getElem _ _ (by omega)]
    exact List.getElem_mem (by omega)
  have hkey := fillBuffer_getD (fun a b cell => lifeRule cell (g.count_neighbors a b))
    g.grid (List.replicate g.rows (List.replicate g.cols false)) i
  rw [if_pos ⟨by omega, by rw [List.length_replicate]; exact hi⟩] at hkey
  have hrep : (List.replicate g.rows (List.replicate g.cols false)).getD i []
      = List.replicate g.cols false := by
    rw [getD_replicate_cond, if_pos hi]
  rw [hrep] at hkey
  have hrow := rowFold_getD (fun b cell => lifeRule cell (g.count_neighbors i b))
    (g.grid.getD i []) 0 (List.replicate g.cols false) j
  rw [if_pos (by
    refine ⟨Nat.zero_le j, ?_, ?_⟩
    · rw [hrowlen]; omega
    · rw [List.length_replicate]; exact hj)] at hrow
  show ((fillBuffer (fun a b cell => lifeRule cell (g.count_neighbors a b)) g.grid
      (List.replicate g.rows (List.replicate g.cols false))).getD i []).getD j false
    = lifeRule ((g.grid.getD i []).getD j false) (g.count_neighbors i j)
  rw [hkey, hrow, Nat.sub_zero]

theorem mem_rangeIncl (a b i : Nat) : i ∈ rangeIncl a b ↔ a ≤ i ∧ i ≤ b := by
  simp only [rangeIncl, List.mem_map, List.mem_range]
  constructor
  · rintro ⟨t, ht, rfl⟩; omega
  · rintro ⟨h1, h2⟩; exact ⟨i - a, by omega, by omega⟩

/-! Parsing lemmas: parseRow, parseLines, rustLines, fromText. -/

theorem parseRow_complete (l : List Char) (h : ∀ c ∈ l, c = '0' ∨ c = '1') :
    parseRow l = .ok (l.map (fun c => c == '1')) := by
  induction l with
  | nil => rfl
  | cons c rest ih =>
    have hrest := ih (fun d hd => h d (by simp [hd]))
    rcases h c (by simp) with h0 | h1
    · subst h0
      simp [parseRow, hrest, Except.map]
    · subst h1
      simp [parseRow, hrest, Except.map]

theorem parseRow_ok_sound (l : List Char) :
    ∀ row, parseRow l = .ok row →
      (∀ c ∈ l, c = '0' ∨ c = '1') ∧ row = l.map (fun c => c == '1') := by
  induction l with
  | nil =>
    intro row h
    simp only [parseRow] at h
    injection h with h
    subst h
    simp
  | cons c rest ih =>
    intro row h
    by_cases h0 : c = '0'
    · subst h0
      rw [parseRow, if_pos rfl] at h
      cases hr : parseRow rest with
      | error e => rw [hr] at h; exact absurd h (by simp [Except.map])
      | ok r =>
        rw [hr] at h
        simp only [Except.map] at h
        injection h with h
        obtain ⟨hv, hrow⟩ := ih r hr
        subst h
        refine ⟨?_, by simp [hrow]⟩
        intro d hd
        rcases List.mem_cons.mp hd with h | h
        · exact Or.inl h
        · exact hv d h
    · by_cases h1 : c = '1'
      · subst h1
        rw [parseRow, if_neg (by decide), if_pos rfl] at h
        cases hr : parseRow rest with
        | error e => rw [hr] at h; exact absurd h (by simp [Except.map])
        | ok r =>
          rw [hr] at h
          simp only [Except.map] at h
          injection h with h
          obtain ⟨hv, hrow⟩ := ih r hr
          subst h
          refine ⟨?_, by simp [hrow]⟩
          intro d hd
          rcases List.mem_cons.mp hd with h | h
          · exact Or.inr h
          · exact hv d h
      · rw [parseRow, if_neg h0, if_neg h1] at h
        exact absurd h (by simp)

theorem parseRow_error_sound (l : List Char) :
    ∀ e, parseRow l = .error e →
      ∃ c ∈ l, (c ≠ '0' ∧ c ≠ '1') ∧ e = .Parse c := by
  induction l with
  | nil => intro e h; exact absurd h (by simp [parseRow])
  | cons c rest ih =>
    intro e h
    by_cases h0 : c = '0'
    · subst h0
      rw [parseRow, if_pos rfl] at h
      cases hr : parseRow rest with
      | error e2 =>
        rw [hr] at h
        simp only [Except.map] at h
        injection h with h
        subst h
        obtain ⟨d, hd, hv, he⟩ := ih e2 hr
        exact ⟨d, by simp [hd], hv, he⟩
      | ok r => rw [hr] at h; exact absurd h (by simp [Except.map])
    · by_cases h1 : c = '1'
      · subst h1
        rw [parseRow, if_neg (by decide), if_pos rfl] at h
        cases hr : parseRow rest with
        | error e2 =>
          rw [hr] at h
          simp only [Except.map] at h
          injection h with h
          subst h
          obtain ⟨d, hd, hv, he⟩ := ih e2 hr
          exact ⟨d, by simp [hd], hv, he⟩
        | ok r => rw [hr] at h; exact absurd h (by simp [Except.map])
      · rw [parseRow, if_neg h0, if_neg h1] at h
        injection h with h
        exact ⟨c, by simp, ⟨h0, h1⟩, h.symm⟩

theorem parseLines_complete (L : List (List Char)) :
    ∀ w, (∀ line ∈ L, (∀ c ∈ line, c = '0' ∨ c = '1') ∧ byteLen line = w) →
      parseLines L (some w) = .ok (L.map (fun l => l.map (fun c => c == '1'))) := by
  induction L with
  | nil => intro w _; rfl
  | cons l rest ih =>
    intro w h
    obtain ⟨hv, hw⟩ := h l (by simp)
    rw [parseLines, if_neg (by simp [hw]), parseRow_complete l hv,
      ih w (fun d hd => h d (by simp [hd]))]
    rfl

theorem parseLines_complete_none (L : List (List Char))
    (hv : ∀ line ∈ L, ∀ c ∈ line, c = '0' ∨ c = '1')
    (hw : ∀ line ∈ L, byteLen line = byteLen (L.headD [])) :
    parseLines L none = .ok (L.map (fun l => l.map (fun c => c == '1'))) := by
  cases L with
  | nil => rfl
  | cons l rest =>
    rw [parseLines, parseRow_complete l (hv l (by simp)),
      parseLines_complete rest (byteLen l)
        (fun d hd => ⟨hv d (by simp [hd]), hw d (by simp [hd])⟩)]
    rfl

theorem parseLines_ok_sound (L : List (List Char)) :
    ∀ w m, parseLines L (some w) = .ok m →
      m = L.map (fun l => l.map (fun c => c == '1')) ∧
      ∀ line ∈ L, (∀ c ∈ line, c = '0' ∨ c = '1') ∧ byteLen line = w := by
  induction L with
  | nil =>
    intro w m h
    simp only [parseLines] at h
    injection h with h
    subst h
    simp
  | cons l rest ih =>
    intro w m h
    rw [parseLines] at h
    by_cases hw : byteLen l ≠ w
    · rw [if_pos hw] at h; exact absurd h (by simp)
    · rw [if_neg hw] at h
      push_neg at hw
      cases hr : parseRow l with
      | error e => rw [hr] at h; exact absurd h (by simp)
      | ok row =>
        rw [hr] at h
        cases hrest : parseLines rest (some w) with
        | error e => rw [hrest] at h; exact absurd h (by simp)
        | ok m2 =>
          rw [hrest] at h
          injection h with h
          subst h
          obtain ⟨hv, hrow⟩ := parseRow_ok_sound l row hr
          obtain ⟨hm2, hall⟩ := ih w m2 hrest
          refine ⟨by simp [hrow, hm2], ?_⟩
          intro line hline
          rcases List.mem_cons.mp hline with h | h
          · subst h; exact ⟨hv, hw⟩
          · exact hall line h

theorem parseLines_ok_sound_none (L : List (List Char)) :
    ∀ m, parseLines L none = .ok m →
      m = L.map (fun l => l.map (fun c => c == '1')) ∧
      ∀ line ∈ L, (∀ c ∈ line, c = '0' ∨ c = '1') ∧
        byteLen line = byteLen (L.headD []) := by
  cases L with
  | nil =>
    intro m h
    simp only [parseLines] at h
    injection h with h
    subst h
    simp
  | cons l rest =>
    intro m h
    rw [parseLines] at h
    cases hr : parseRow l with
    | error e => rw [hr] at h; exact absurd h (by simp)
    | ok row =>
      rw [hr] at h
      cases hrest : parseLines rest (some (byteLen l)) with
      | error e => rw [hrest] at h; exact absurd h (by simp)
      | ok m2 =>
        rw [hrest] at h
        injection h with h
        subst h
        obtain ⟨hv, hrow⟩ := parseRow_ok_sound l row hr
        obtain ⟨hm2, hall⟩ := parseLines_ok_sound rest (byteLen l) m2 hrest
        refine ⟨by simp [hrow, hm2], ?_⟩
        intro line hline
        rcases List.mem_cons.mp hline with h | h
        · subst h; exact ⟨hv, rfl⟩
        · obtain ⟨h1, h2⟩ := hall line h
          exact ⟨h1, h2⟩

theorem parseLines_error_parse (L : List (List Char)) :
    ∀ prev c, parseLines L prev = .error (.Parse c) →
      (c ≠ '0' ∧ c ≠ '1') ∧ ∃ line ∈ L, c ∈ line := by
  induction L with
  | nil => intro prev c h; exact absurd h (by simp [parseLines])
  | cons l rest ih =>
    intro prev c h
    cases prev with
    | none =>
      rw [parseLines] at h
      cases hr : parseRow l with
      | error e =>
        rw [hr] at h
        injection h with h
        subst h
        obtain ⟨d, hd, hv, he⟩ := parseRow_error_sound l _ hr
        injection he with he
        subst he
        exact ⟨hv, l, by simp, hd⟩
      | ok row =>
        rw [hr] at h
        cases hrest : parseLines rest (some (byteLen l)) with
        | error e =>
          rw [hrest] at h
          injection h with h
          subst h
          obtain ⟨hv, line, hline, hc⟩ := ih (some (byteLen l)) c hrest
          exact ⟨hv, line, by simp [hline], hc⟩
        | ok m => rw [hrest] at h; exact absurd h (by simp)
    | some len =>
      rw [parseLines] at h
      by_cases hw : byteLen l ≠ len
      · rw [if_pos hw] at h; exact absurd h (by simp)
      · rw [if_neg hw] at h
        cases hr : parseRow l with
        | error e =>
          rw [hr] at h
          injection h with h
          subst h
          obtain ⟨d, hd, hv, he⟩ := parseRow_error_sound l _ hr
          injection he with he
          subst he
          exact ⟨hv, l, by simp, hd⟩
        | ok row =>
          rw [hr] at h
          cases hrest : parseLines rest (some len) with
          | error e =>
            rw [hrest] at h
            injection h with h
            subst h
            obtain ⟨hv, line, hline, hc⟩ := ih (some len) c hrest
            exact ⟨hv, line, by simp [hline], hc⟩
          | ok m => rw [hrest] at h; exact absurd h (by simp)

theorem parseLines_error_width (L : List (List Char)) :
    ∀ w, parseLines L (some w) = .error .InconsistentWidth →
      ∃ line ∈ L, byteLen line ≠ w := by
  induction L with
  | nil => intro w h; exact absurd h (by simp [parseLines])
  | cons l rest ih =>
    intro w h
    rw [parseLines] at h
    by_cases hw : byteLen l ≠ w
    · exact ⟨l, by simp, hw⟩
    · rw [if_neg hw] at h
      cases hr : parseRow l with
      | error e =>
        rw [hr] at h
        injection h with h
        obtain ⟨d, _, _, he⟩ := parseRow_error_sound l _ hr
        rw [he] at h
        exact absurd h (by simp)
      | ok row =>
        rw [hr] at h
        cases hrest : parseLines rest (some w) with
        | error e =>
          rw [hrest] at h
          injection h with h
          subst h
          obtain ⟨line, hline, hne⟩ := ih w hrest
          exact ⟨line, by simp [hline], hne⟩
        | ok m => rw [hrest] at h; exact absurd h (by simp)

theorem parseLines_error_width_none (L : List (List Char))
    (h : parseLines L none = .error .InconsistentWidth) :
    ∃ line ∈ L, byteLen line ≠ byteLen (L.headD []) := by
  cases L with
  | nil => exact absurd h (by simp [parseLines])
  | cons l rest =>
    rw [parseLines] at h
    cases hr : parseRow l with
    | error e =>
      rw [hr] at h
      injection h with h
      obtain ⟨d, _, _, he⟩ := parseRow_error_sound l _ hr
      rw [he] at h
      exact absurd h (by simp)
    | ok row =>
      rw [hr] at h
      cases hrest : parseLines rest (some (byteLen l)) with
      | error e =>
        rw [hrest] at h
        injection h with h
        subst h
        obtain ⟨line, hline, hne⟩ := parseLines_error_width rest (byteLen l) hrest
        exact ⟨line, by simp [hline], hne⟩
      | ok m => rw [hrest] at h; exact absurd h (by simp)

/-! Lemmas on rustLines, saveContent and fromText. -/

theorem getLast?_mem {α : Type} (l : List α) : ∀ a, l.getLast? = some a → a ∈ l := by
  induction l with
  | nil => intro a h; exact absurd h (by simp)
  | cons x t ih =>
    intro a h
    cases t with
    | nil =>
      simp only [List.getLast?_singleton, Option.some_inj] at h
      subst h
      simp
    | cons b t2 =>
      rw [List.getLast?_cons_cons] at h
      exact List.mem_cons_of_mem x (ih a h)

theorem splitNl_ne_nil (l : List Char) : splitNl l ≠ [] := by
  induction l with
  | nil => simp [splitNl]
  | cons c rest ih =>
    rw [splitNl]
    by_cases h : c = '\n'
    · simp [h]
    · rw [if_neg h]
      cases hs : splitNl rest with
      | nil => exact absurd hs ih
      | cons s ss => simp

theorem splitNl_cons_ne_single_nil (c : Char) (rest : List Char) :
    splitNl (c :: rest) ≠ [[]] := by
  rw [splitNl]
  by_cases h : c = '\n'
  · rw [if_pos h]
    intro hcontra
    injection hcontra with h1 h2
    exact splitNl_ne_nil rest h2
  · rw [if_neg h]
    cases hs : splitNl rest with
    | nil => exact absurd hs (splitNl_ne_nil rest)
    | cons s ss =>
      intro hcontra
      injection hcontra with h1 h2
      exact List.cons_ne_nil c s h1

theorem dropLast_nil_getLast {α : Type} (L : List α) (x : α)
    (h1 : L.getLast? = some x) (h2 : L.dropLast = []) : L = [x] := by
  cases L with
  | nil => exact absurd h1 (by simp)
  | cons a t =>
    cases t with
    | nil =>
      simp only [List.getLast?_singleton, Option.some_inj] at h1
      rw [h1]
    | cons b t2 => simp at h2

theorem rustLines_cons_ne_nil (c : Char) (rest : List Char) :
    rustLines (c :: rest) ≠ [] := by
  unfold rustLines
  cases hlast : (splitNl (c :: rest)).getLast? with
  | none =>
    cases hs : splitNl (c :: rest) with
    | nil => exact absurd hs (splitNl_ne_nil (c :: rest))
    | cons s ss => rw [hs] at hlast; simp [List.getLast?_eq_getLast] at hlast
  | some l =>
    cases l with
    | nil =>
      intro hcontra
      cases hd : (splitNl (c :: rest)).dropLast with
      | nil =>
        exact absurd (dropLast_nil_getLast _ _ hlast hd)
          (splitNl_cons_ne_single_nil c rest)
      | cons s ss => rw [hd] at hcontra; simp at hcontra
    | cons d l2 => simp

theorem splitNl_append (l : List Char) (rest : List Char) (h : '\n' ∉ l) :
    splitNl (l ++ '\n' :: rest) = l :: splitNl rest := by
  induction l with
  | nil => simp [splitNl]
  | cons c t ih =>
    have hc : c ≠ '\n' := by intro hcontra; exact h (by simp [hcontra])
    have ht : '\n' ∉ t := fun hmem => h (by simp [hmem])
    rw [List.cons_append, splitNl, if_neg hc, ih ht]

theorem splitNl_flatten (rows : List (List Char))
    (h : ∀ row ∈ rows, '\n' ∉ row) :
    splitNl ((rows.map (fun r => r ++ ['\n'])).flatten) = rows ++ [[]] := by
  induction rows with
  | nil => simp [splitNl]
  | cons r rest ih =>
    rw [List.map_cons, List.flatten_cons,
      show (r ++ ['\n']) ++ ((rest.map (fun r => r ++ ['\n'])).flatten)
        = r ++ '\n' :: ((rest.map (fun r => r ++ ['\n'])).flatten) by simp,
      splitNl_append _ _ (h r (by simp)), ih (fun d hd => h d (by simp [hd]))]
    rfl

theorem rowChars_no_nl (r : List Bool) : '\n' ∉ rowChars r := by
  intro hmem
  rw [rowChars] at hmem
  rcases List.mem_map.mp hmem with ⟨cell, _, hc⟩
  cases cell <;> exact absurd hc (by decide)

theorem stripCR_rowChars (r : List Bool) : stripCR (rowChars r) = rowChars r := by
  have hne : (rowChars r).getLast? ≠ some '\r' := by
    intro h
    have hm := getLast?_mem _ _ h
    rw [rowChars] at hm
    rcases List.mem_map.mp hm with ⟨cell, _, hc⟩
    cases cell <;> exact absurd hc (by decide)
  unfold stripCR
  rw [if_neg hne]

theorem rowChars_valid (r : List Bool) : ∀ c ∈ rowChars r, c = '0' ∨ c = '1' := by
  intro c hc
  rw [rowChars] at hc
  rcases List.mem_map.mp hc with ⟨cell, _, rfl⟩
  cases cell
  · exact Or.inl rfl
  · exact Or.inr rfl

theorem byteLen_rowChars (r : List Bool) : byteLen (rowChars r) = r.length := by
  induction r with
  | nil => rfl
  | cons cell t ih =>
    rw [rowChars] at ih ⊢
    rw [List.map_cons, byteLen, List.map_cons, List.sum_cons]
    rw [byteLen] at ih
    rw [ih, List.length_cons]
    cases cell
    · rw [show (if (false : Bool) = true then '1' else '0') = '0' from rfl,
        show Char.utf8Size '0' = 1 from by decide]
      omega
    · rw [show (if (true : Bool) = true then '1' else '0') = '1' from rfl,
        show Char.utf8Size '1' = 1 from by decide]
      omega

theorem byteLen_valid (l : List Char) (h : ∀ c ∈ l, c = '0' ∨ c = '1') :
    byteLen l = l.length := by
  induction l with
  | nil => rfl
  | cons c t ih =>
    rw [byteLen, List.map_cons, List.sum_cons, List.length_cons]
    rw [byteLen] at ih
    rw [ih (fun d hd => h d (by simp [hd]))]
    rcases h c (by simp) with h0 | h0 <;> subst h0
    · rw [show Char.utf8Size '0' = 1 from by decide]; omega
    · rw [show Char.utf8Size '1' = 1 from by decide]; omega

theorem rowChars_inv (r : List Bool) :
    (rowChars r).map (fun c => c == '1') = r := by
  rw [rowChars, List.map_map]
  have hcomp : ((fun c => c == '1') ∘ fun cell => if cell then '1' else '0')
      = @id Bool := by
    funext cell
    cases cell <;> rfl
  rw [hcomp, List.map_id]

theorem rustLines_saveContent (g : Grid) :
    rustLines g.saveContent = g.grid.map rowChars := by
  have hnl : ∀ row ∈ g.grid.map rowChars, '\n' ∉ row := by
    intro row hrow
    rcases List.mem_map.mp hrow with ⟨r, _, rfl⟩
    exact rowChars_no_nl r
  have hsave : g.saveContent
      = ((g.grid.map rowChars).map (fun r => r ++ ['\n'])).flatten := by
    rw [Grid.saveContent, List.map_map]
    rfl
  unfold rustLines
  rw [hsave, splitNl_flatten _ hnl, List.getLast?_concat]
  show ((g.grid.map rowChars ++ [[]]).dropLast).map stripCR = g.grid.map rowChars
  rw [List.dropLast_concat, List.map_map]
  have : (stripCR ∘ rowChars) = rowChars := by
    funext r
    exact stripCR_rowChars r
  rw [this]

theorem matrix_inv (m : List (List Bool)) :
    (m.map rowChars).map (fun l => l.map (fun c => c == '1')) = m := by
  rw [List.map_map]
  have hcomp : ((fun l => l.map (fun c => c == '1')) ∘ rowChars)
      = @id (List Bool) := by
    funext r
    exact rowChars_inv r
  rw [hcomp, List.map_id]

theorem fromText_ok_sound (content : List Char) (g : Grid)
    (h : fromText content = some (.ok g)) :
    g.grid = (rustLines content).map (fun l => l.map (fun c => c == '1')) ∧
    g.saved = g.grid ∧
    g.rows = (rustLines content).length ∧
    g.cols = byteLen ((rustLines content).headD []) ∧
    (∀ line ∈ rustLines content, (∀ c ∈ line, c = '0' ∨ c = '1') ∧
      byteLen line = byteLen ((rustLines content).headD [])) := by
  unfold fromText at h
  cases hp : parseLines (rustLines content) none with
  | error e => rw [hp] at h; exact absurd h (by simp)
  | ok m =>
    rw [hp] at h
    obtain ⟨hm, hall⟩ := parseLines_ok_sound_none (rustLines content) m hp
    cases hL : rustLines content with
    | nil => rw [hL] at h; exact absurd h (by simp)
    | cons first lrest =>
      rw [hL] at h
      simp only [List.head?] at h
      injection h with h
      injection h with h
      subst h
      rw [hL] at hm hall
      exact ⟨hm, rfl, rfl, rfl, hall⟩

theorem fromText_error_parse_sound (content : List Char) (c : Char)
    (h : fromText content = some (.error (.Parse c))) :
    (c ≠ '0' ∧ c ≠ '1') ∧ ∃ line ∈ rustLines content, c ∈ line := by
  unfold fromText at h
  cases hp : parseLines (rustLines content) none with
  | error e =>
    rw [hp] at h
    injection h with h
    injection h with h
    subst h
    exact parseLines_error_parse (rustLines content) none c hp
  | ok m =>
    rw [hp] at h
    cases hh : (rustLines content).head? with
    | none => rw [hh] at h; exact absurd h (by simp)
    | some first => rw [hh] at h; exact absurd h (by simp)

theorem fromText_error_width_sound (content : List Char)
    (h : fromText content = some (.error .InconsistentWidth)) :
    ∃ line ∈ rustLines content,
      byteLen line ≠ byteLen ((rustLines content).headD []) := by
  unfold fromText at h
  cases hp : parseLines (rustLines content) none with
  | error e =>
    rw [hp] at h
    injection h with h
    injection h with h
    subst h
    exact parseLines_error_width_none (rustLines content) hp
  | ok m =>
    rw [hp] at h
    cases hh : (rustLines content).head? with
    | none => rw [hh] at h; exact absurd h (by simp)
    | some first => rw [hh] at h; exact absurd h (by simp)

theorem fromText_total (content : List Char) (h : content ≠ []) :
    ∃ r, fromText content = some r := by
  cases content with
  | nil => exact absurd rfl h
  | cons c rest =>
    unfold fromText
    cases hp : parseLines (rustLines (c :: rest)) none with
    | error e => exact ⟨.error e, rfl⟩
    | ok m =>
      cases hL : rustLines (c :: rest) with
      | nil => exact absurd hL (rustLines_cons_ne_nil c rest)
      | cons first lrest =>
        exact ⟨.ok ⟨m, m, (first :: lrest).length, byteLen first, false⟩, rfl⟩

theorem fromText_complete (content : List Char) (first : List Char)
    (lrest : List (List Char)) (hL : rustLines content = first :: lrest)
    (hvalid : ∀ line ∈ first :: lrest, ∀ c ∈ line, c = '0' ∨ c = '1')
    (hwidth : ∀ line ∈ first :: lrest,
      byteLen line = byteLen ((first :: lrest).headD [])) :
    fromText content
    = some (.ok ⟨(first :: lrest).map (fun l => l.map (fun c => c == '1')),
        (first :: lrest).map (fun l => l.map (fun c => c == '1')),
        (first :: lrest).length, byteLen first, false⟩) := by
  unfold fromText
  rw [hL, parseLines_complete_none _ hvalid hwidth]
  rfl

theorem fromText_saveContent (g : Grid) (hwf : g.WF) (hrows : 0 < g.rows) :
    ∃ g2 : Grid, fromText g.saveContent = some (.ok g2) ∧
      g2.grid = g.grid ∧ g2.saved = g.grid ∧
      g2.rows = g.rows ∧ g2.cols = g.cols := by
  obtain ⟨hg1, hg2, hg3, hg4⟩ := hwf
  have hne : g.grid ≠ [] := by
    intro hnil
    rw [hnil] at hg1
    simp at hg1
    omega
  obtain ⟨r0, grest, hgrid⟩ := List.exists_cons_of_ne_nil hne
  have hM : g.grid.map rowChars = rowChars r0 :: grest.map rowChars := by
    rw [hgrid]
    rfl
  have hvalid : ∀ line ∈ g.grid.map rowChars, ∀ c ∈ line, c = '0' ∨ c = '1' := by
    intro line hline
    rcases List.mem_map.mp hline with ⟨r, _, rfl⟩
    exact rowChars_valid r
  have hwidth : ∀ line ∈ g.grid.map rowChars,
      byteLen line = byteLen ((g.grid.map rowChars).headD []) := by
    intro line hline
    rcases List.mem_map.mp hline with ⟨r, hr, rfl⟩
    rw [hM]
    show byteLen (rowChars r) = byteLen (rowChars r0)
    rw [byteLen_rowChars, byteLen_rowChars, hg2 r hr,
      hg2 r0 (by rw [hgrid]; simp)]
  have hcomplete := fromText_complete g.saveContent (rowChars r0)
    (grest.map rowChars) (by rw [rustLines_saveContent g, hM])
    (by rw [← hM]; exact hvalid) (by rw [← hM]; exact hwidth)
  refine ⟨_, hcomplete, ?_, ?_, ?_, ?_⟩
  · show (rowChars r0 :: grest.map rowChars).map
      (fun l => l.map (fun c => c == '1')) = g.grid
    rw [← hM, matrix_inv]
  · show (rowChars r0 :: grest.map rowChars).map
      (fun l => l.map (fun c => c == '1')) = g.grid
    rw [← hM, matrix_inv]
  · show (rowChars r0 :: grest.map rowChars).length = g.rows
    rw [← hM, List.length_map, hg1]
  · show byteLen (rowChars r0) = g.cols
    rw [byteLen_rowChars]
    exact hg2 r0 (by rw [hgrid]; simp)

/-! Bounds on count_neighbors. -/

theorem count_neighbors_bound (g : Grid) (x y : Nat)
    (hx : x < g.rows) (hy : y < g.cols) :
    g.count_neighbors x y
    ≤ ((min (x + 1) (g.rows - 1) + 1 - (x - 1)) - 1)
        * (min (y + 1) (g.cols - 1) + 1 - (y - 1))
      + ((min (y + 1) (g.cols - 1) + 1 - (y - 1)) - 1) := by
  rw [Grid.count_neighbors]
  have hxmem : x ∈ rangeIncl (x - 1) (min (x + 1) (g.rows - 1)) :=
    (mem_rangeIncl _ _ x).mpr ⟨by omega, by omega⟩
  have hymem : y ∈ rangeIncl (y - 1) (min (y + 1) (g.cols - 1)) :=
    (mem_rangeIncl _ _ y).mpr ⟨by omega, by omega⟩
  have hb : ∀ i ∈ rangeIncl (x - 1) (min (x + 1) (g.rows - 1)),
      ((rangeIncl (y - 1) (min (y + 1) (g.cols - 1))).filter
        (fun j => !(i == x && j == y) && cellAt g.grid i j)).length
      ≤ (rangeIncl (y - 1) (min (y + 1) (g.cols - 1))).length :=
    fun i _ => List.length_filter_le _ _
  have hc : ((rangeIncl (y - 1) (min (y + 1) (g.cols - 1))).filter
      (fun j => !(x == x && j == y) && cellAt g.grid x j)).length
      ≤ (rangeIncl (y - 1) (min (y + 1) (g.cols - 1))).length - 1 :=
    filter_length_drop _ _ y hymem (by simp)
  have := sum_map_le_single (rangeIncl (x - 1) (min (x + 1) (g.rows - 1)))
    (fun i => ((rangeIncl (y - 1) (min (y + 1) (g.cols - 1))).filter
      (fun j => !(i == x && j == y) && cellAt g.grid i j)).length)
    ((rangeIncl (y - 1) (min (y + 1) (g.cols - 1))).length)
    ((rangeIncl (y - 1) (min (y + 1) (g.cols - 1))).length - 1)
    x hxmem hb hc
  rw [length_rangeIncl, length_rangeIncl] at this
  exact this

theorem count_neighbors_single (g : Grid) (hr : g.rows = 1) (hc : g.cols = 1) :
    g.count_neighbors 0 0 = 0 := by
  rw [Grid.count_neighbors, hr, hc]
  rfl

/-! Key handling and mutation lemmas. -/

theorem eqIgnore_ne (c a b : Char) (h1 : eqIgnoreAsciiCase c a = true)
    (hab : toAsciiLower a ≠ toAsciiLower b) : eqIgnoreAsciiCase c b = false := by
  rw [eqIgnoreAsciiCase] at h1 ⊢
  have h2 : toAsciiLower c = toAsciiLower a := by simpa using h1
  rw [h2]
  simpa using hab

theorem applyMutation_saved (g : Grid) (m : Mutation) :
    (applyMutation g m).saved = g.saved := by
  cases m <;> rfl

theorem applyMutations_saved (ms : List Mutation) :
    ∀ g : Grid, (applyMutations g ms).saved = g.saved := by
  induction ms with
  | nil => intro g; rfl
  | cons m t ih =>
    intro g
    show (applyMutations (applyMutation g m) t).saved = g.saved
    rw [ih (applyMutation g m), applyMutation_saved]

/-! Dimension preservation of the Grid operations. -/

theorem create_random_vec_dims (rng : Nat → Nat → Bool) (rows cols : Nat) :
    (create_random_vec rng rows cols).length = rows ∧
    ∀ row ∈ create_random_vec rng rows cols, row.length = cols := by
  constructor
  · simp [create_random_vec]
  · intro row h
    rw [create_random_vec] at h
    rcases List.mem_map.mp h with ⟨i, _, rfl⟩
    simp

theorem new_WF (rng : Nat → Nat → Bool) (rows cols : Nat) :
    (Grid.new rng rows cols).WF := by
  obtain ⟨h1, h2⟩ := create_random_vec_dims rng rows cols
  exact ⟨h1, h2, h1, h2⟩

theorem update_grid_WF (g : Grid) (h : g.WF) : (g.update_grid).WF := by
  obtain ⟨h1, h2, h3, h4⟩ := h
  have hd := fillBuffer_dims
    (fun i j cell => lifeRule cell (g.count_neighbors i j)) g.grid
    (List.replicate g.rows (List.replicate g.cols false)) g.rows g.cols
    (by simp)
    (by
      intro row hrow
      rw [List.eq_of_mem_replicate hrow]
      simp)
  exact ⟨hd.1, hd.2, h3, h4⟩

theorem fromText_WF (content : List Char) (g : Grid)
    (h : fromText content = some (.ok g)) : g.WF := by
  obtain ⟨hgrid, hsaved, hrows, hcols, hall⟩ := fromText_ok_sound content g h
  have hlen : g.grid.length = g.rows := by
    rw [hgrid, List.length_map, hrows]
  have hrowlen : ∀ row ∈ g.grid, row.length = g.cols := by
    intro row hrow
    rw [hgrid] at hrow
    rcases List.mem_map.mp hrow with ⟨line, hline, rfl⟩
    obtain ⟨hv, hw⟩ := hall line hline
    rw [List.length_map, ← byteLen_valid line hv, hw, hcols]
  refine ⟨hlen, hrowlen, ?_, ?_⟩
  · rw [hsaved]; exact hlen
  · rw [hsaved]; exact hrowlen

/-! The claims. -/

/-- C1: for every well-formed grid and in-bounds cell (i, j), the cell after
one update_grid is alive iff the cell was alive with exactly 2 or 3 live
neighbors, or dead with exactly 3; otherwise it is dead. The right-hand side
reads only the pre-update matrix, so no cell depends on an already updated
cell of the same generation. -/
theorem C1_step_rule (g : Grid) (hwf : g.WF) (i j : Nat)
    (hi : i < g.rows) (hj : j < g.cols) :
    cellAt (g.update_grid).grid i j = true ↔
      ((cellAt g.grid i j = true ∧
          (g.count_neighbors i j = 2 ∨ g.count_neighbors i j = 3)) ∨
        (cellAt g.grid i j = false ∧ g.count_neighbors i j = 3)) := by
  rw [cellAt_update_grid g hwf i j hi hj]
  cases hcell : cellAt g.grid i j <;> simp [lifeRule] <;> omega

/-- C1 witness: the rule evaluated on the blinker at cell (0, 1). -/
theorem C1_step_rule_witness :
    cellAt gBlinker.update_grid.grid 0 1 = true ↔
      ((cellAt gBlinker.grid 0 1 = true ∧
          (gBlinker.count_neighbors 0 1 = 2 ∨ gBlinker.count_neighbors 0 1 = 3)) ∨
        (cellAt gBlinker.grid 0 1 = false ∧ gBlinker.count_neighbors 0 1 = 3)) :=
  C1_step_rule gBlinker (by decide) 0 1 (by decide) (by decide)

/-- C2: the two concrete failure examples of the spec, soundness of both
error constructors (a Parse error carries a character outside 0 and 1 that
occurs in some line, an InconsistentWidth error comes with a line whose
byte length differs from the first), failure whenever such a line exists,
and the success shape: rows is the line count, cols the first line length,
and cells and saved equal the parsed matrix. -/
theorem C2_fromText_errors (content : List Char) :
    fromText ("010\n01".data) = some (.error .InconsistentWidth) ∧
    fromText ("012".data) = some (.error (.Parse '2')) ∧
    (∀ c, fromText content = some (.error (.Parse c)) →
      (c ≠ '0' ∧ c ≠ '1') ∧ ∃ line ∈ rustLines content, c ∈ line) ∧
    (fromText content = some (.error .InconsistentWidth) →
      ∃ line ∈ rustLines content,
        byteLen line ≠ byteLen ((rustLines content).headD [])) ∧
    ((∃ line ∈ rustLines content, ∃ c ∈ line, c ≠ '0' ∧ c ≠ '1') ∨
        (∃ line ∈ rustLines content,
          byteLen line ≠ byteLen ((rustLines content).headD [])) →
      ∀ g : Grid, fromText content ≠ some (.ok g)) ∧
    (∀ g : Grid, fromText content = some (.ok g) →
      g.rows = (rustLines content).length ∧
      g.cols = byteLen ((rustLines content).headD []) ∧
      g.grid = (rustLines content).map (fun l => l.map (fun c => c == '1')) ∧
      g.saved = g.grid) := by
  refine ⟨rfl, rfl, ?_, ?_, ?_, ?_⟩
  · exact fun c h => fromText_error_parse_sound content c h
  · exact fun h => fromText_error_width_sound content h
  · intro hbad g hok
    obtain ⟨_, _, _, _, hall⟩ := fromText_ok_sound content g hok
    rcases hbad with ⟨line, hline, c, hc, hv⟩ | ⟨line, hline, hne⟩
    · rcases (hall line hline).1 c hc with h | h
      · exact hv.1 h
      · exact hv.2 h
    · exact hne (hall line hline).2
  · intro g hok
    obtain ⟨hgrid, hsaved, hrows, hcols, _⟩ := fromText_ok_sound content g hok
    exact ⟨hrows, hcols, hgrid, hsaved⟩

/-- C2 witness: the parse-error clause applied at the input 012. -/
theorem C2_fromText_errors_witness :
    ('2' ≠ '0' ∧ '2' ≠ '1') ∧ ∃ line ∈ rustLines ("012".data), '2' ∈ line :=
  (C2_fromText_errors ("012".data)).2.2.1 '2' rfl

/-- C3 counterexample: for the 0 x 0 grid produced by Grid::new(0, 0), the
serialized content is empty, and parsing it back panics (the none result)
instead of succeeding, so the round trip fails for that grid. -/
theorem C3_roundtrip_counterexample :
    ¬ ∃ g2 : Grid, fromText gEmpty.saveContent = some (.ok g2) ∧
      g2.grid = gEmpty.grid := by
  rintro ⟨g2, h, _⟩
  rw [show fromText gEmpty.saveContent = none from rfl] at h
  exact Option.noConfusion h

/-- C3 amended: for every well-formed grid with at least one row, parsing
the content written by save_to_file succeeds and reproduces the exact cell
matrix. -/
theorem C3_roundtrip (g : Grid) (hwf : g.WF) (hrows : 0 < g.rows) :
    ∃ g2 : Grid, fromText g.saveContent = some (.ok g2) ∧ g2.grid = g.grid := by
  obtain ⟨g2, h1, h2, _⟩ := fromText_saveContent g hwf hrows
  exact ⟨g2, h1, h2⟩

/-- C3 witness: the round trip on the blinker. -/
theorem C3_roundtrip_witness :
    ∃ g2 : Grid, fromText gBlinker.saveContent = some (.ok g2) ∧
      g2.grid = gBlinker.grid :=
  C3_roundtrip gBlinker (by decide) (by decide)

/-- C4: save_state followed by any sequence of Step and Restart mutations
followed by load_state restores the matrix exactly; if saved still equals
the live matrix (as at construction), load_state after any such sequence
restores the construction matrix; and both constructors seed saved with
the live matrix. -/
theorem C4_snapshot (g : Grid) (ms : List Mutation) :
    ((applyMutations g.save_state ms).load_state).grid = g.grid ∧
    (g.saved = g.grid → ((applyMutations g ms).load_state).grid = g.grid) ∧
    (∀ rng rows cols,
      (Grid.new rng rows cols).saved = (Grid.new rng rows cols).grid) ∧
    (∀ content g0, fromText content = some (.ok g0) → g0.saved = g0.grid) := by
  refine ⟨?_, ?_, ?_, ?_⟩
  · show (applyMutations g.save_state ms).saved = g.grid
    rw [applyMutations_saved ms g.save_state]
    rfl
  · intro h
    show (applyMutations g ms).saved = g.grid
    rw [applyMutations_saved ms g]
    exact h
  · intro rng rows cols
    rfl
  · exact fun content g0 h => (fromText_ok_sound content g0 h).2.1

/-- C4 witness: the snapshot clauses applied to the blinker and one Step. -/
theorem C4_snapshot_witness :
    ((applyMutations gBlinker.save_state [Mutation.step]).load_state).grid
      = gBlinker.grid ∧
    ((applyMutations gBlinker [Mutation.step]).load_state).grid
      = gBlinker.grid :=
  ⟨(C4_snapshot gBlinker [Mutation.step]).1,
    (C4_snapshot gBlinker [Mutation.step]).2.1 rfl⟩

/-- C5: for every in-bounds cell the neighbor count is at most 8 (and at
least 0, by the Nat type), at most 3 for a corner cell, and at most 5 for a
boundary cell that is not a corner. -/
theorem C5_neighbor_bounds (g : Grid) (x y : Nat)
    (hx : x < g.rows) (hy : y < g.cols) :
    g.count_neighbors x y ≤ 8 ∧
    ((x = 0 ∨ x = g.rows - 1) ∧ (y = 0 ∨ y = g.cols - 1) →
      g.count_neighbors x y ≤ 3) ∧
    (((x = 0 ∨ x = g.rows - 1) ∧ ¬(y = 0 ∨ y = g.cols - 1)) ∨
      ((y = 0 ∨ y = g.cols - 1) ∧ ¬(x = 0 ∨ x = g.rows - 1)) →
      g.count_neighbors x y ≤ 5) := by
  have h := count_neighbors_bound g x y hx hy
  refine ⟨?_, ?_, ?_⟩
  · have hmul : (min (x + 1) (g.rows - 1) + 1 - (x - 1) - 1)
        * (min (y + 1) (g.cols - 1) + 1 - (y - 1)) ≤ 2 * 3 :=
      Nat.mul_le_mul (by omega) (by omega)
    omega
  · rintro ⟨hxb, hyb⟩
    have hil : min (x + 1) (g.rows - 1) + 1 - (x - 1) ≤ 2 := by
      rcases hxb with h2 | h2 <;> omega
    have hjl : min (y + 1) (g.cols - 1) + 1 - (y - 1) ≤ 2 := by
      rcases hyb with h2 | h2 <;> omega
    have hmul : (min (x + 1) (g.rows - 1) + 1 - (x - 1) - 1)
        * (min (y + 1) (g.cols - 1) + 1 - (y - 1)) ≤ 1 * 2 :=
      Nat.mul_le_mul (by omega) (by omega)
    omega
  · rintro (⟨hxb, _⟩ | ⟨hyb, _⟩)
    · have hil : min (x + 1) (g.rows - 1) + 1 - (x - 1) ≤ 2 := by
        rcases hxb with h2 | h2 <;> omega
      have hmul : (min (x + 1) (g.rows - 1) + 1 - (x - 1) - 1)
          * (min (y + 1) (g.cols - 1) + 1 - (y - 1)) ≤ 1 * 3 :=
        Nat.mul_le_mul (by omega) (by omega)
      omega
    · have hjl : min (y + 1) (g.cols - 1) + 1 - (y - 1) ≤ 2 := by
        rcases hyb with h2 | h2 <;> omega
      have hmul : (min (x + 1) (g.rows - 1) + 1 - (x - 1) - 1)
          * (min (y + 1) (g.cols - 1) + 1 - (y - 1)) ≤ 2 * 2 :=
        Nat.mul_le_mul (by omega) (by omega)
      omega

/-- C5 witness: the corner cell (0, 0) of the 2 x 2 sample grid. -/
theorem C5_neighbor_bounds_witness :
    gSample.count_neighbors 0 0 ≤ 8 ∧
    ((0 = 0 ∨ 0 = gSample.rows - 1) ∧ (0 = 0 ∨ 0 = gSample.cols - 1) →
      gSample.count_neighbors 0 0 ≤ 3) :=
  ⟨(C5_neighbor_bounds gSample 0 0 (by decide) (by decide)).1,
    (C5_neighbor_bounds gSample 0 0 (by decide) (by decide)).2.1⟩

/-- C6: random construction and successful text construction yield
well-formed grids with the requested dimensions, and restart, save_state,
load_state and update_grid preserve well-formedness and leave the rows and
cols fields unchanged. -/
theorem C6_dimension_invariant :
    (∀ (rng : Nat → Nat → Bool) rows cols, (Grid.new rng rows cols).WF ∧
      (Grid.new rng rows cols).rows = rows ∧
      (Grid.new rng rows cols).cols = cols) ∧
    (∀ content g, fromText content = some (.ok g) → g.WF) ∧
    (∀ g : Grid, g.WF → ∀ rng, (g.restart rng).WF ∧
      (g.restart rng).rows = g.rows ∧ (g.restart rng).cols = g.cols) ∧
    (∀ g : Grid, g.WF → g.save_state.WF ∧
      g.save_state.rows = g.rows ∧ g.save_state.cols = g.cols) ∧
    (∀ g : Grid, g.WF → g.load_state.WF ∧
      g.load_state.rows = g.rows ∧ g.load_state.cols = g.cols) ∧
    (∀ g : Grid, g.WF → g.update_grid.WF ∧
      g.update_grid.rows = g.rows ∧ g.update_grid.cols = g.cols) := by
  refine ⟨?_, ?_, ?_, ?_, ?_, ?_⟩
  · exact fun rng rows cols => ⟨new_WF rng rows cols, rfl, rfl⟩
  · exact fun content g h => fromText_WF content g h
  · intro g hwf rng
    obtain ⟨h1, h2⟩ := create_random_vec_dims rng g.rows g.cols
    exact ⟨⟨h1, h2, hwf.2.2.1, hwf.2.2.2⟩, rfl, rfl⟩
  · intro g hwf
    exact ⟨⟨hwf.1, hwf.2.1, hwf.1, hwf.2.1⟩, rfl, rfl⟩
  · intro g hwf
    exact ⟨⟨hwf.2.2.1, hwf.2.2.2, hwf.2.2.1, hwf.2.2.2⟩, rfl, rfl⟩
  · exact fun g hwf => ⟨update_grid_WF g hwf, rfl, rfl⟩

/-- C6 witness: the preservation clauses applied to the sample grid. -/
theorem C6_dimension_invariant_witness :
    (gSample.restart rng0).WF ∧ gSample.save_state.WF ∧
    gSample.load_state.WF ∧ gSample.update_grid.WF :=
  ⟨(C6_dimension_invariant.2.2.1 gSample (by decide) rng0).1,
    (C6_dimension_invariant.2.2.2.1 gSample (by decide)).1,
    (C6_dimension_invariant.2.2.2.2.1 gSample (by decide)).1,
    (C6_dimension_invariant.2.2.2.2.2 gSample (by decide)).1⟩

/-- C7: the dispatch table of handle_key_event. A letter key matching r
restarts, Ctrl with s writes the serialized grid to the target path, plain
s snapshots, l loads the snapshot, p toggles pause; Escape, q and Ctrl with
c return false (stop); every other key returns true and leaves the grid
unchanged. -/
theorem C7_key_dispatch (rng : Nat → Nat → Bool) (g : Grid) :
    (∀ c ctrl, eqIgnoreAsciiCase c 'r' = true →
      handle_key_event rng ⟨.char c, ctrl⟩ g = ⟨true, g.restart rng, none⟩) ∧
    (∀ c, eqIgnoreAsciiCase c 's' = true →
      handle_key_event rng ⟨.char c, true⟩ g = ⟨true, g, some g.saveContent⟩) ∧
    (∀ c, eqIgnoreAsciiCase c 's' = true →
      handle_key_event rng ⟨.char c, false⟩ g = ⟨true, g.save_state, none⟩) ∧
    (∀ c ctrl, eqIgnoreAsciiCase c 'l' = true →
      handle_key_event rng ⟨.char c, ctrl⟩ g = ⟨true, g.load_state, none⟩) ∧
    (∀ c ctrl, eqIgnoreAsciiCase c 'p' = true →
      handle_key_event rng ⟨.char c, ctrl⟩ g = ⟨true, g.toggle_pause, none⟩) ∧
    (∀ ctrl, handle_key_event rng ⟨.esc, ctrl⟩ g = ⟨false, g, none⟩) ∧
    (∀ c ctrl, eqIgnoreAsciiCase c 'q' = true →
      handle_key_event rng ⟨.char c, ctrl⟩ g = ⟨false, g, none⟩) ∧
    (∀ c, eqIgnoreAsciiCase c 'c' = true →
      handle_key_event rng ⟨.char c, true⟩ g = ⟨false, g, none⟩) ∧
    (∀ ctrl, handle_key_event rng ⟨.other, ctrl⟩ g = ⟨true, g, none⟩) ∧
    (∀ c ctrl, eqIgnoreAsciiCase c 'r' = false →
      eqIgnoreAsciiCase c 's' = false → eqIgnoreAsciiCase c 'l' = false →
      eqIgnoreAsciiCase c 'p' = false → eqIgnoreAsciiCase c 'q' = false →
      (ctrl = false ∨ eqIgnoreAsciiCase c 'c' = false) →
      handle_key_event rng ⟨.char c, ctrl⟩ g = ⟨true, g, none⟩) := by
  refine ⟨?_, ?_, ?_, ?_, ?_, ?_, ?_, ?_, ?_, ?_⟩
  · intro c ctrl h
    simp [handle_key_event, h]
  · intro c h
    have hr := eqIgnore_ne c 's' 'r' h (by decide)
    simp [handle_key_event, hr, h]
  · intro c h
    have hr := eqIgnore_ne c 's' 'r' h (by decide)
    simp [handle_key_event, hr, h]
  · intro c ctrl h
    have hr := eqIgnore_ne c 'l' 'r' h (by decide)
    have hs := eqIgnore_ne c 'l' 's' h (by decide)
    simp [handle_key_event, hr, hs, h]
  · intro c ctrl h
    have hr := eqIgnore_ne c 'p' 'r' h (by decide)
    have hs := eqIgnore_ne c 'p' 's' h (by decide)
    have hl := eqIgnore_ne c 'p' 'l' h (by decide)
    simp [handle_key_event, hr, hs, hl, h]
  · intro ctrl
    rfl
  · intro c ctrl h
    have hr := eqIgnore_ne c 'q' 'r' h (by decide)
    have hs := eqIgnore_ne c 'q' 's' h (by decide)
    have hl := eqIgnore_ne c 'q' 'l' h (by decide)
    have hp := eqIgnore_ne c 'q' 'p' h (by decide)
    simp [handle_key_event, hr, hs, hl, hp, h]
  · intro c h
    have hr := eqIgnore_ne c 'c' 'r' h (by decide)
    have hs := eqIgnore_ne c 'c' 's' h (by decide)
    have hl := eqIgnore_ne c 'c' 'l' h (by decide)
    have hp := eqIgnore_ne c 'c' 'p' h (by decide)
    have hq := eqIgnore_ne c 'c' 'q' h (by decide)
    simp [handle_key_event, hr, hs, hl, hp, hq, h]
  · intro ctrl
    rfl
  · intro c ctrl hr hs hl hp hq hc
    rcases hc with hc | hc
    · subst hc
      simp [handle_key_event, hr, hs, hl, hp, hq]
    · simp [handle_key_event, hr, hs, hl, hp, hq, hc]

/-- C7 witness: the load clause at a concrete event. -/
theorem C7_key_dispatch_witness :
    handle_key_event rng0 ⟨.char 'l', false⟩ gSample
      = ⟨true, gSample.load_state, none⟩ :=
  (C7_key_dispatch rng0 gSample).2.2.2.1 'l' false rfl

/-- C8: on a 1 x 1 grid the neighbor count of the only cell is 0. -/
theorem C8_single_cell (g : Grid) (hr : g.rows = 1) (hc : g.cols = 1) :
    g.count_neighbors 0 0 = 0 :=
  count_neighbors_single g hr hc

/-- C8 witness: the 1 x 1 random grid. -/
theorem C8_single_cell_witness : (Grid.new rng0 1 1).count_neighbors 0 0 = 0 :=
  C8_single_cell (Grid.new rng0 1 1) rfl rfl

/-- C9: restart replaces only the live matrix, with a fresh rows x cols
random matrix; saved, paused, rows and cols are unchanged, and the
operation is total. -/
theorem C9_restart_frame (g : Grid) (rng : Nat → Nat → Bool) :
    (g.restart rng).grid = create_random_vec rng g.rows g.cols ∧
    (g.restart rng).saved = g.saved ∧
    (g.restart rng).paused = g.paused ∧
    (g.restart rng).rows = g.rows ∧
    (g.restart rng).cols = g.cols ∧
    (create_random_vec rng g.rows g.cols).length = g.rows ∧
    (∀ row ∈ create_random_vec rng g.rows g.cols, row.length = g.cols) := by
  obtain ⟨h1, h2⟩ := create_random_vec_dims rng g.rows g.cols
  exact ⟨rfl, rfl, rfl, rfl, rfl, h1, h2⟩

/-- C10 counterexample: on empty content, the modelled from_file parse hits
the unwrap panic (none) and returns no value of the declared error
taxonomy. -/
theorem C10_total_counterexample :
    ¬ ∃ r : Except GridError Grid, fromText [] = some r := by
  rintro ⟨r, h⟩
  rw [show fromText ([] : List Char) = none from rfl] at h
  exact Option.noConfusion h

/-- C10 amended: on every nonempty content the parse is total, returning
either a Grid or a GridError. -/
theorem C10_total (content : List Char) (h : content ≠ []) :
    ∃ r : Except GridError Grid, fromText content = some r :=
  fromText_total content h

/-- C10 witness: a one-character content. -/
theorem C10_total_witness :
    ∃ r : Except GridError Grid, fromText ['0'] = some r :=
  C10_total ['0'] (by decide)

end Conway
